import Mathlib

/-!
Verification of `lib/utils/hierarchy_dataframe.py`.

The single source function is

  def hierarchy_dataframe(metadata, hierarchy_columns):
      metadata = metadata.rename(columns=...each level h -> h_strain...)
      return pd.wide_to_long(metadata, stubnames=hierarchy_columns,
              i=["gisaid_epi_isl"], j="resolution_type", sep="_", suffix="\w+") \
          .reset_index()[hierarchy_columns] \
          .fillna("") \
          .drop_duplicates() \
          .reset_index(drop=True) \
          .sort_values(by=hierarchy_columns)

The embedding below models the pandas primitives this pipeline uses, following
the pandas 1.x sources of `rename`, `wide_to_long` (its explicit error checks
in source order, the per-stub melt with one long row per matching column and
input row, the numeric cast of all-numeric resolution suffixes, and the outer
join across stubs including its all-pairs row multiplication on repeated
keys), `fillna`, `drop_duplicates` (keep first) and `sort_values`, together
with the pipeline's own failure points: the `reset_index` ValueError on a
leftover `resolution_type` column, the failure on duplicate hierarchy names,
and the `set_index` KeyError when the identifier column is itself melted away
by a stub pattern.  Cell values are strings or missing (NaN); a DataFrame is
its column-name list plus rows of cells (the integer index is dropped by the
pipeline itself, so it is not modelled).  Remaining modelling notes: the
numeric suffix cast is modelled for decimal-digit suffixes (exotic float
spellings such as exponent notation stay strings), and when no level has any
matching column at all the model returns no rows where pandas pads one
all-missing row per identifier — no statement below depends on that corner,
as the preconditions demand a matching column per level.
-/

namespace NcovIngest

/-- Cell value: `none` models a pandas missing value (NaN), `some s` the
string `s`. -/
abbrev Value := Option String

/-- Shallow embedding of a pandas DataFrame: named columns and rows of cells. -/
structure DataFrame where
  cols : List String
  rows : List (List Value)
deriving Repr, DecidableEq

/-- Identifier column, the key `i` of the wide-to-long reshape. -/
def idCol : String := "gisaid_epi_isl"

/-- Word character, as matched by the regex class backslash w in Python (ASCII
range; the metadata handled by the repository uses ASCII column names). -/
def isWordChar (c : Char) : Bool := c.isAlphanum || c == '_'

/-- Suffix extracted when column `c` matches the `wide_to_long` stub pattern of
level `h`: the name is `h`, an underscore, and one or more word characters
(regex stub + sep + suffix, fully anchored).  `none` when `c` does not match. -/
def stubSuffix? (h c : String) : Option String :=
  if (h ++ "_").data.isPrefixOf c.data &&
      !(c.data.drop (h ++ "_").data.length).isEmpty &&
      (c.data.drop (h ++ "_").data.length).all isWordChar then
    some (String.mk (c.data.drop (h ++ "_").data.length))
  else none

/-- Renaming applied first by `hierarchy_dataframe`: each column named exactly
a hierarchy level `h` becomes `h_strain` (pandas `rename` with the dictionary
comprehension over `hierarchy_columns`). -/
def renameF (hier : List String) (c : String) : String :=
  if c ∈ hier then c ++ "_strain" else c

/-- Renamed frame (pandas `rename` returns a new frame, values untouched). -/
def renameCols (df : DataFrame) (hier : List String) : DataFrame :=
  ⟨df.cols.map (renameF hier), df.rows⟩

/-- First value in an association list under key `k`. -/
def alookup (k : String) : List (String × Value) → Option Value
  | [] => none
  | (c, v) :: l => if c = k then some v else alookup k l

/-- Value of `row` at the column named `c`: the cell under the first column of
that name, `none` when the column is absent or the row is short. -/
def getCell (cols : List String) (row : List Value) (c : String) : Value :=
  (alookup c (cols.zip row)).getD none

/-- Columns of `cols` matched by the stub pattern of level `h`. -/
def matchingCols (cols : List String) (h : String) : List String :=
  cols.filter (fun c => (stubSuffix? h c).isSome)

/-- Removal of every leftmost non-overlapping occurrence of `pat`, on explicit
fuel (the fuel is always instantiated with the length of the scanned list,
which bounds the number of steps). -/
def stripAux (pat : List Char) : Nat → List Char → List Char
  | 0, s => s
  | _, [] => []
  | n+1, a :: s =>
    if pat.isPrefixOf (a :: s) && !pat.isEmpty then
      stripAux pat n ((a :: s).drop pat.length)
    else a :: stripAux pat n s

/-- Resolution-type key of a matched column: the column name with every
occurrence of `h` plus underscore removed, mirroring the
`str.replace(re.escape(stub + sep), "")` step of `wide_to_long`. -/
def suffixKey (h c : String) : String :=
  String.mk (stripAux (h ++ "_").data c.data.length c.data)

/-- Resolution key after the numeric cast `wide_to_long` attempts on the
resolution-type column: a number or a string. -/
abbrev SKey := Sum Nat String

/-- Nonempty all-digit string, the decimal-integer case of the cast. -/
def isDigits (s : String) : Bool := !s.data.isEmpty && s.data.all (·.isDigit)

/-- Value of an all-digit string. -/
def digitsToNat (s : String) : Nat :=
  s.data.foldl (fun n d => n * 10 + (d.toNat - 48)) 0

/-- Resolution key of a matched column of level `h`, after the `to_numeric`
cast `wide_to_long` applies to the whole resolution-type column of a stub: the
cast fires when every suffix of the stub parses as a number (modelled for the
decimal-integer case; exotic float spellings such as exponent notation are
kept as strings), merging keys like 02 and 2. -/
def stubKey (cols : List String) (h : String) (c : String) : SKey :=
  if (matchingCols cols h).all fun c2 => isDigits (suffixKey h c2) then
    .inl (digitsToNat (suffixKey h c))
  else .inr (suffixKey h c)

/-- Identifier values of all rows. -/
def idVals (df : DataFrame) : List Value :=
  df.rows.map (fun r => getCell df.cols r idCol)

/-- Keep-first deduplication, with the already-kept elements accumulated. -/
def dedupAux [DecidableEq α] : List α → List α → List α
  | _, [] => []
  | seen, a :: l => if a ∈ seen then dedupAux seen l else a :: dedupAux (a :: seen) l

/-- Keep-first deduplication, as performed by pandas `drop_duplicates`. -/
def dedupKeepFirst [DecidableEq α] (l : List α) : List α := dedupAux [] l

/-- Entries of the melted frame of one stub, exactly as `melt` builds it: one
entry per matching column and input row (column-major), keyed by the
identifier value and the cast resolution key, holding that row's cell under
that column. -/
def meltStub (df : DataFrame) (h : String) : List ((Value × SKey) × Value) :=
  (matchingCols df.cols h).flatMap fun c =>
    df.rows.map fun r => ((getCell df.cols r idCol, stubKey df.cols h c), getCell df.cols r c)

/-- Outer join of the rows accumulated so far (each of width `w`) with the
next stub's melted entries, on the key: rows with the same key pair up, all
pairs when a key repeats on either side — exactly the row multiplication of
the pandas outer merge with non-unique keys — and unmatched rows on either
side are padded with missing values.  Row order can differ from pandas; the
pipeline deduplicates and sorts by value, so only the set of rows matters. -/
def mergeStub (acc : List ((Value × SKey) × List Value)) (w : Nat)
    (next : List ((Value × SKey) × Value)) : List ((Value × SKey) × List Value) :=
  (acc.flatMap fun kv =>
    if (next.filter fun e => decide (e.1 = kv.1)).isEmpty then [(kv.1, kv.2 ++ [none])]
    else (next.filter fun e => decide (e.1 = kv.1)).map fun e => (kv.1, kv.2 ++ [e.2]))
  ++ ((next.filter fun e => !(acc.any fun kv => decide (kv.1 = e.1))).map
      fun e => (e.1, List.replicate w none ++ [e.2]))

/-- Fold of `mergeStub` across the hierarchy levels, left to right, tracking
the accumulated row width. -/
def joinStubsAux (df : DataFrame) :
    List ((Value × SKey) × List Value) → Nat → List String →
      List ((Value × SKey) × List Value)
  | acc, _, [] => acc
  | acc, w, h :: rest => joinStubsAux df (mergeStub acc w (meltStub df h)) (w + 1) rest

/-- Joined long-format rows over all hierarchy levels: the outer join of the
per-stub melted frames on the identifier and resolution key. -/
def joinStubs (df : DataFrame) (hier : List String) : List ((Value × SKey) × List Value) :=
  joinStubsAux df [] 0 hier

/-- Result of `wide_to_long(...).reset_index()[hierarchy_columns]`: the joined
rows restricted to the per-level value columns, which are named exactly the
hierarchy levels, in order. -/
def longTable (df : DataFrame) (hier : List String) : DataFrame :=
  ⟨hier, (joinStubs df hier).map fun e => e.2⟩

/-- fillna: every missing cell becomes the empty string. -/
def fillRow (r : List Value) : List Value := r.map (fun v => some (v.getD ""))

/-- fillna over the whole frame. -/
def fillna (df : DataFrame) : DataFrame := ⟨df.cols, df.rows.map fillRow⟩

/-- drop_duplicates: remove later duplicate rows. -/
def dropDuplicates (df : DataFrame) : DataFrame := ⟨df.cols, dedupKeepFirst df.rows⟩

/-- Code-point comparison of characters (Python character order). -/
def charLt (a b : Char) : Bool := decide (a.toNat < b.toNat)

/-- Strict lexicographic order on char lists (Python string less-than,
which is also how pandas compares string cells). -/
def chLt : List Char → List Char → Bool
  | _, [] => false
  | [], _ :: _ => true
  | a :: as, b :: bs => charLt a b || (a == b && chLt as bs)

/-- Strict cell order used by `sort_values`: strings in Python order, missing
values last (pandas default na_position; unreachable after fillna). -/
def valLt : Value → Value → Bool
  | none, _ => false
  | some _, none => true
  | some a, some b => chLt a.data b.data

/-- Reflexive row order of `sort_values` by all hierarchy columns in order:
lexicographic by cell. -/
def rowLe : List Value → List Value → Bool
  | [], _ => true
  | _ :: _, [] => false
  | a :: as, b :: bs => valLt a b || (a == b && rowLe as bs)

/-- Propositional form of `rowLe`. -/
def RLe (a b : List Value) : Prop := rowLe a b = true

instance : DecidableRel RLe := fun a b => inferInstanceAs (Decidable (rowLe a b = true))

/-- sort_values by the full column tuple (the output columns are exactly the
hierarchy columns, so the sort key is the whole row); the keys of distinct
rows are distinct, so any comparison sort yields the pandas order. -/
def sortValues (df : DataFrame) : DataFrame :=
  ⟨df.cols, df.rows.insertionSort RLe⟩

/-- Presence of a leftover `resolution_type` column: a column of that name
that no stub pattern melts away survives as a data column, and the pipeline's
own `.reset_index()` then raises ValueError (cannot insert resolution_type,
already exists) when re-inserting the index level of the same name. -/
def resolutionTypeClash (df : DataFrame) (hier : List String) : Bool :=
  decide ("resolution_type" ∈ df.cols) &&
    !(hier.any fun h => (stubSuffix? h "resolution_type").isSome)

/-- Errors raised by the pandas primitives along the pipeline. -/
inductive PdError
  /-- ValueError of `wide_to_long`: a stubname is identical to a column name. -/
  | stubnameCollision
  /-- KeyError from selecting the absent identifier column; the
  MissingIdentifierColumn of the specification taxonomy. -/
  | missingIdColumn
  /-- ValueError of `wide_to_long`: the id variables need to uniquely identify
  each row. -/
  | duplicateIdValues
  /-- IndexError from taking the first melted frame when stubnames is empty. -/
  | emptyStubnames
  /-- Failure on duplicate hierarchy names: the per-stub melted frames carry
  identically named value columns, which the join of the melted frames
  (concat with verify_integrity), or, on the merge path, the later selection
  and sort_values label lookup, rejects; no table is returned in any case. -/
  | duplicateLevels
  /-- KeyError of `set_index` when the identifier column itself matches some
  stub pattern and is melted away before the final join. -/
  | idMeltedAway
  /-- ValueError of `.reset_index()` on a leftover `resolution_type` column. -/
  | resolutionTypeCollision
deriving Repr, DecidableEq, Fintype

/-- Checks and failure points of `pd.wide_to_long` and the subsequent
selection, fillna, drop_duplicates, reset_index and sort_values, on the
already-renamed frame, in source order: the stubname collision ValueError,
the KeyError of `df[i]`, the duplicated-id ValueError, the IndexError on
empty stubnames, the duplicate-level failure at the join of the melted
frames, the `set_index` KeyError when the identifier was melted away, and the
`reset_index` ValueError on a leftover resolution_type column; then the
normalization, deduplication and sort. -/
def reshapePipeline (df : DataFrame) (hier : List String) : Except PdError DataFrame :=
  if df.cols.any (fun c => decide (c ∈ hier)) then .error .stubnameCollision
  else if idCol ∉ df.cols then .error .missingIdColumn
  else if ¬ (idVals df).Nodup then .error .duplicateIdValues
  else if hier.isEmpty then .error .emptyStubnames
  else if ¬ hier.Nodup then .error .duplicateLevels
  else if hier.any (fun h => (stubSuffix? h idCol).isSome) then .error .idMeltedAway
  else if resolutionTypeClash df hier then .error .resolutionTypeCollision
  else .ok (sortValues (dropDuplicates (fillna (longTable df hier))))

/-- Shallow embedding of `hierarchy_dataframe` of
`lib/utils/hierarchy_dataframe.py`: rename each exact-name level column to its
`_strain` stub variant, then reshape wide to long keyed by the identifier,
keep the hierarchy columns, normalize missing values to the empty string,
deduplicate, and sort by the hierarchy columns. -/
def hierarchy_dataframe (metadata : DataFrame) (hierarchy_columns : List String) :
    Except PdError DataFrame :=
  reshapePipeline (renameCols metadata hierarchy_columns) hierarchy_columns

instance {ε α : Type} [DecidableEq ε] [DecidableEq α] : DecidableEq (Except ε α) := fun
  | .error e, .error f => decidable_of_iff (e = f) (by simp)
  | .error _, .ok _ => isFalse (by simp)
  | .ok _, .error _ => isFalse (by simp)
  | .ok a, .ok b => decidable_of_iff (a = b) (by simp)

/-! Facts about the sort order: `RLe` is a total transitive relation, so
`insertionSort` produces a sorted permutation. -/

theorem charLt_trans {a b c : Char} (h1 : charLt a b = true) (h2 : charLt b c = true) :
    charLt a c = true := by
  exact decide_eq_true (Nat.lt_trans (of_decide_eq_true h1) (of_decide_eq_true h2))

theorem charLt_total {a b : Char} (h : a ≠ b) : charLt a b = true ∨ charLt b a = true := by
  have hn : a.toNat ≠ b.toNat := fun hh => h (Char.ext (UInt32.ext hh))
  rcases Nat.lt_or_ge a.toNat b.toNat with hlt | hge
  · exact Or.inl (decide_eq_true hlt)
  · exact Or.inr (decide_eq_true (lt_of_le_of_ne hge hn.symm))

theorem chLt_total : ∀ {as bs : List Char}, as ≠ bs → chLt as bs = true ∨ chLt bs as = true
  | [], [], h => absurd rfl h
  | [], _ :: _, _ => Or.inl rfl
  | _ :: _, [], _ => Or.inr rfl
  | a :: as, b :: bs, h => by
    by_cases hab : a = b
    · subst hab
      have hne : as ≠ bs := fun hh => h (by rw [hh])
      rcases chLt_total hne with h1 | h1
      · exact Or.inl (by simp [chLt, h1])
      · exact Or.inr (by simp [chLt, h1])
    · rcases charLt_total hab with h1 | h1
      · exact Or.inl (by simp [chLt, h1])
      · exact Or.inr (by simp [chLt, h1])

theorem chLt_trans {as bs cs : List Char} (h1 : chLt as bs = true) (h2 : chLt bs cs = true) :
    chLt as cs = true := by
  induction as generalizing bs cs with
  | nil =>
    cases cs with
    | nil =>
      cases bs with
      | nil => exact h1
      | cons b bs => simp [chLt] at h2
    | cons c cs => simp [chLt]
  | cons a as ih =>
    cases bs with
    | nil => simp [chLt] at h1
    | cons b bs =>
      cases cs with
      | nil => simp [chLt] at h2
      | cons c cs =>
        simp only [chLt, Bool.or_eq_true, Bool.and_eq_true, beq_iff_eq] at h1 h2 ⊢
        rcases h1 with h1 | ⟨rfl, h1⟩
        · rcases h2 with h2 | ⟨rfl, h2⟩
          · exact Or.inl (charLt_trans h1 h2)
          · exact Or.inl h1
        · rcases h2 with h2 | ⟨rfl, h2⟩
          · exact Or.inl h2
          · exact Or.inr ⟨rfl, ih h1 h2⟩

theorem string_data_inj {a b : String} (h : a.data = b.data) : a = b := by
  cases a; cases b; exact congrArg String.mk h

theorem valLt_total {a b : Value} (h : a ≠ b) : valLt a b = true ∨ valLt b a = true := by
  match a, b with
  | none, none => exact absurd rfl h
  | none, some y => exact Or.inr rfl
  | some x, none => exact Or.inl rfl
  | some x, some y =>
    have hxy : x.data ≠ y.data := fun hh => h (by rw [string_data_inj hh])
    rcases chLt_total hxy with h1 | h1
    · exact Or.inl h1
    · exact Or.inr h1

theorem valLt_trans {a b c : Value} (h1 : valLt a b = true) (h2 : valLt b c = true) :
    valLt a c = true := by
  match a, b, c with
  | none, _, _ => simp [valLt] at h1
  | some x, none, _ => simp [valLt] at h2
  | some x, some y, none => rfl
  | some x, some y, some z => exact chLt_trans h1 h2

theorem rowLe_total : ∀ (as bs : List Value), rowLe as bs = true ∨ rowLe bs as = true
  | [], _ => Or.inl rfl
  | _ :: _, [] => Or.inr rfl
  | a :: as, b :: bs => by
    by_cases hab : a = b
    · subst hab
      rcases rowLe_total as bs with h1 | h1
      · exact Or.inl (by simp [rowLe, h1])
      · exact Or.inr (by simp [rowLe, h1])
    · rcases valLt_total hab with h1 | h1
      · exact Or.inl (by simp [rowLe, h1])
      · exact Or.inr (by simp [rowLe, h1])

theorem rowLe_trans {as bs cs : List Value} (h1 : rowLe as bs = true)
    (h2 : rowLe bs cs = true) : rowLe as cs = true := by
  induction as generalizing bs cs with
  | nil => exact rfl
  | cons a as ih =>
    cases bs with
    | nil => simp [rowLe] at h1
    | cons b bs =>
      cases cs with
      | nil => simp [rowLe] at h2
      | cons c cs =>
        simp only [rowLe, Bool.or_eq_true, Bool.and_eq_true, beq_iff_eq] at h1 h2 ⊢
        rcases h1 with h1 | ⟨rfl, h1⟩
        · rcases h2 with h2 | ⟨rfl, h2⟩
          · exact Or.inl (valLt_trans h1 h2)
          · exact Or.inl h1
        · rcases h2 with h2 | ⟨rfl, h2⟩
          · exact Or.inl h2
          · exact Or.inr ⟨rfl, ih h1 h2⟩

instance : IsTotal (List Value) RLe := ⟨fun a b => rowLe_total a b⟩

instance : IsTrans (List Value) RLe := ⟨fun _ _ _ => rowLe_trans⟩

/-! Facts about keep-first deduplication. -/

theorem mem_dedupAux [DecidableEq α] {x : α} :
    ∀ {seen l : List α}, x ∈ dedupAux seen l ↔ x ∈ l ∧ x ∉ seen := by
  intro seen l
  induction l generalizing seen with
  | nil => simp [dedupAux]
  | cons a l ih =>
    by_cases ha : a ∈ seen
    · rw [dedupAux, if_pos ha, ih]
      constructor
      · rintro ⟨h1, h2⟩; exact ⟨List.mem_cons_of_mem a h1, h2⟩
      · rintro ⟨h1, h2⟩
        rcases List.mem_cons.mp h1 with rfl | h1
        · exact absurd ha h2
        · exact ⟨h1, h2⟩
    · rw [dedupAux, if_neg ha]
      constructor
      · intro hx
        rcases List.mem_cons.mp hx with rfl | hx
        · exact ⟨List.mem_cons_self x l, ha⟩
        · obtain ⟨h1, h2⟩ := ih.mp hx
          exact ⟨List.mem_cons_of_mem a h1,
            fun hs => h2 (List.mem_cons_of_mem a hs)⟩
      · rintro ⟨h1, h2⟩
        rcases List.mem_cons.mp h1 with rfl | h1
        · exact List.mem_cons_self x _
        · by_cases hxa : x = a
          · subst hxa; exact List.mem_cons_self x _
          · exact List.mem_cons_of_mem a
              (ih.mpr ⟨h1, fun hs => (List.mem_cons.mp hs).elim hxa h2⟩)

theorem nodup_dedupAux [DecidableEq α] : ∀ (seen l : List α), (dedupAux seen l).Nodup := by
  intro seen l
  induction l generalizing seen with
  | nil => simp [dedupAux]
  | cons a l ih =>
    by_cases ha : a ∈ seen
    · rw [dedupAux, if_pos ha]; exact ih seen
    · rw [dedupAux, if_neg ha]
      refine List.nodup_cons.mpr ⟨fun hx => ?_, ih (a :: seen)⟩
      exact (mem_dedupAux.mp hx).2 (List.mem_cons_self a seen)

theorem dedupAux_eq_self [DecidableEq α] :
    ∀ {seen l : List α}, l.Nodup → (∀ x ∈ l, x ∉ seen) → dedupAux seen l = l := by
  intro seen l hnd hdis
  induction l generalizing seen with
  | nil => rfl
  | cons a l ih =>
    rw [dedupAux, if_neg (hdis a (List.mem_cons_self a l))]
    refine congrArg (a :: ·) (ih (List.nodup_cons.mp hnd).2 ?_)
    intro x hx hs
    rcases List.mem_cons.mp hs with rfl | hs
    · exact (List.nodup_cons.mp hnd).1 hx
    · exact hdis x (List.mem_cons_of_mem a hx) hs

theorem mem_dedupKeepFirst [DecidableEq α] {x : α} {l : List α} :
    x ∈ dedupKeepFirst l ↔ x ∈ l := by
  rw [dedupKeepFirst, mem_dedupAux]; simp

theorem nodup_dedupKeepFirst [DecidableEq α] (l : List α) : (dedupKeepFirst l).Nodup :=
  nodup_dedupAux [] l

theorem dedupKeepFirst_eq_self [DecidableEq α] {l : List α} (h : l.Nodup) :
    dedupKeepFirst l = l :=
  dedupAux_eq_self h (by simp)

/-! Facts about the rename step and the identifier column. -/

theorem strain_ne_id (s : String) : s ++ "_strain" ≠ idCol := by
  intro h
  have h1 : s.data ++ "_strain".data = idCol.data := by
    rw [← h]; cases s; rfl
  have h2 : idCol.data = ['g','i','s','a','i','d','_'] ++ ['e','p','i','_','i','s','l'] := by
    decide
  have h3 : "_strain".data = ['_','s','t','r','a','i','n'] := by decide
  rw [h3, h2] at h1
  have hlen : s.data.length = 7 := by
    have hl := congrArg List.length h1
    rw [List.length_append] at hl
    simp only [List.length_cons, List.length_nil, List.length_append] at hl
    omega
  have h4 := List.append_inj_right h1 (by simp [hlen])
  simp at h4

theorem renameF_eq_id_iff {hier : List String} (hid : idCol ∉ hier) (c : String) :
    renameF hier c = idCol ↔ c = idCol := by
  by_cases hc : c ∈ hier
  · simp only [renameF, if_pos hc]
    constructor
    · intro h; exact absurd h (strain_ne_id c)
    · rintro rfl; exact absurd hc hid
  · simp [renameF, hc]

theorem alookup_zip_map_rename {hier : List String} (hid : idCol ∉ hier) :
    ∀ (cols : List String) (row : List Value),
      alookup idCol ((cols.map (renameF hier)).zip row) = alookup idCol (cols.zip row)
  | [], _ => rfl
  | _ :: _, [] => rfl
  | c :: cols, v :: row => by
    show alookup idCol ((renameF hier c, v) :: _) = alookup idCol ((c, v) :: _)
    rw [alookup, alookup]
    by_cases hc : c = idCol
    · rw [if_pos hc, if_pos ((renameF_eq_id_iff hid c).mpr hc)]
    · rw [if_neg hc, if_neg (fun hh => hc ((renameF_eq_id_iff hid c).mp hh))]
      exact alookup_zip_map_rename hid cols row

theorem getCell_rename_id {hier : List String} (hid : idCol ∉ hier)
    (cols : List String) (row : List Value) :
    getCell (cols.map (renameF hier)) row idCol = getCell cols row idCol := by
  unfold getCell
  rw [alookup_zip_map_rename hid]

theorem idVals_rename {df : DataFrame} {hier : List String} (hid : idCol ∉ hier) :
    idVals (renameCols df hier) = idVals df := by
  unfold idVals renameCols
  exact List.map_congr_left fun r _ => getCell_rename_id hid df.cols r

/-- Normalized, deduplicated, sorted table produced on the success path. -/
def postTable (df : DataFrame) (hier : List String) : DataFrame :=
  sortValues (dropDuplicates (fillna (longTable (renameCols df hier) hier)))

theorem no_collision {df : DataFrame} {hier : List String}
    (hcol : ∀ c ∈ df.cols, c ∈ hier → c ++ "_strain" ∉ hier) :
    ((renameCols df hier).cols.any fun c => decide (c ∈ hier)) ≠ true := by
  intro hany
  obtain ⟨c, hc, hdec⟩ := List.any_eq_true.mp hany
  obtain ⟨c0, hc0, rfl⟩ := List.mem_map.mp hc
  have hch : renameF hier c0 ∈ hier := of_decide_eq_true hdec
  by_cases hmem : c0 ∈ hier
  · rw [renameF, if_pos hmem] at hch
    exact hcol c0 hc0 hmem hch
  · rw [renameF, if_neg hmem] at hch
    exact hmem hch

theorem ok_inversion {df out : DataFrame} {hier : List String}
    (h : hierarchy_dataframe df hier = .ok out) : out = postTable df hier := by
  unfold hierarchy_dataframe reshapePipeline at h
  split at h
  · exact absurd h (by simp)
  · split at h
    · exact absurd h (by simp)
    · split at h
      · exact absurd h (by simp)
      · split at h
        · exact absurd h (by simp)
        · split at h
          · exact absurd h (by simp)
          · split at h
            · exact absurd h (by simp)
            · split at h
              · exact absurd h (by simp)
              · exact (Except.ok.inj h).symm

theorem postTable_cols (df : DataFrame) (hier : List String) :
    (postTable df hier).cols = hier := rfl

theorem sorted_postTable_rows (df : DataFrame) (hier : List String) :
    (postTable df hier).rows.Sorted RLe :=
  List.sorted_insertionSort RLe _

/-! Membership in the outer join of the melted stubs: a joined row at a key is
one value choice per level, where the choice set of a level is its melted
values at that key, padded with a single missing value when it has none. -/

/-- Input of the specification scenario: strain A1 with region Europe and
region of exposure Asia, strain A2 with region Europe and missing exposure. -/
def scenarioDf : DataFrame :=
  ⟨["gisaid_epi_isl", "region", "region_exposure"],
   [[some "A1", some "Europe", some "Asia"],
    [some "A2", some "Europe", none]]⟩

/-- C1 counterexample: on the specification scenario the function returns
three rows, not the claimed two: the missing `region_exposure` of strain A2
becomes an empty-string row that survives deduplication (fillna runs before
drop_duplicates) and sorts first.  The claimed two-row output is refuted. -/
theorem scenario_two_rows_cex :
    hierarchy_dataframe scenarioDf ["region"] =
      .ok ⟨["region"], [[some ""], [some "Asia"], [some "Europe"]]⟩ ∧
    (hierarchy_dataframe scenarioDf ["region"]).map DataFrame.rows ≠
      .ok [[some "Asia"], [some "Europe"]] := by decide

/-- C1 amended: on the scenario input with hierarchy column `region` the
function returns exactly three rows, in order the empty string (from the
normalized missing exposure of A2), then Asia, then Europe. -/
theorem scenario_three_rows :
    hierarchy_dataframe scenarioDf ["region"] =
      .ok ⟨["region"], [[some ""], [some "Asia"], [some "Europe"]]⟩ := by decide

/-- C3: whenever the function returns a table, every pair of adjacent output
rows is ordered by the lexicographic row order `RLe` (cells compared left to
right in Python string order, in which the empty string comes first and
missing values would come last). -/
theorem output_sorted {df out : DataFrame} {hier : List String}
    (h : hierarchy_dataframe df hier = .ok out) : out.rows.Chain' RLe := by
  rw [ok_inversion h]
  exact (sorted_postTable_rows df hier).chain'

/-- Witness for C3 at the scenario input. -/
theorem output_sorted_witness :
    (⟨["region"], [[some ""], [some "Asia"], [some "Europe"]]⟩ : DataFrame).rows.Chain' RLe :=
  output_sorted
    (by decide : hierarchy_dataframe scenarioDf ["region"] =
      .ok ⟨["region"], [[some ""], [some "Asia"], [some "Europe"]]⟩)

/-- Input with a `region` column and no identifier column. -/
def collisionDf : DataFrame := ⟨["region"], [[some "x"]]⟩

/-- C6 counterexample: an input lacking `gisaid_epi_isl` does not always fail
with the missing-identifier error: with hierarchy columns region and
region_strain, the rename turns the `region` column into `region_strain`,
which collides with a stubname, and the reshape raises its stubname ValueError
first. -/
theorem missing_id_error_kind_cex :
    idCol ∉ collisionDf.cols ∧
    hierarchy_dataframe collisionDf ["region", "region_strain"] =
      .error .stubnameCollision ∧
    hierarchy_dataframe collisionDf ["region", "region_strain"] ≠
      .error .missingIdColumn := by decide

/-- C6 amended: an input lacking `gisaid_epi_isl` always fails, and the error
is the missing-identifier KeyError provided no renamed column collides with a
stubname (no column in the hierarchy list whose name plus `_strain` is again a
hierarchy level); in the collision case the stubname ValueError fires first. -/
theorem missing_id_fails {df : DataFrame} {hier : List String}
    (hid : idCol ∉ df.cols)
    (hcol : ∀ c ∈ df.cols, c ∈ hier → c ++ "_strain" ∉ hier) :
    hierarchy_dataframe df hier = .error .missingIdColumn := by
  have c2 : idCol ∉ (renameCols df hier).cols := by
    intro hmem
    obtain ⟨c0, hc0, hc⟩ := List.mem_map.mp hmem
    by_cases hm : c0 ∈ hier
    · rw [renameF, if_pos hm] at hc
      exact strain_ne_id c0 hc
    · rw [renameF, if_neg hm] at hc
      exact hid (hc ▸ hc0)
  unfold hierarchy_dataframe reshapePipeline
  rw [if_neg (no_collision hcol), if_pos c2]

/-- Witness for the amended C6. -/
theorem missing_id_fails_witness :
    hierarchy_dataframe (⟨["region"], [[some "x"]]⟩ : DataFrame) ["region"] =
      .error .missingIdColumn :=
  missing_id_fails (by decide) (by decide)

/-- C9: an input two of whose rows carry the same identifier value never
yields a table: some pipeline check fails (normally the uniqueness ValueError
of the reshape; a stubname collision or a renamed-away identifier column would
fail even earlier).  Uniqueness of `gisaid_epi_isl` values is therefore an
unstated precondition of the operation. -/
theorem duplicate_id_fails {df : DataFrame} {hier : List String} {i j : Nat}
    (_hid : idCol ∈ df.cols) (hij : i ≠ j)
    (hi : i < df.rows.length) (hj : j < df.rows.length)
    (heq : getCell df.cols (df.rows.get ⟨i, hi⟩) idCol
         = getCell df.cols (df.rows.get ⟨j, hj⟩) idCol) :
    ∃ e, hierarchy_dataframe df hier = .error e := by
  unfold hierarchy_dataframe reshapePipeline
  by_cases c1 : ((renameCols df hier).cols.any fun c => decide (c ∈ hier)) = true
  · rw [if_pos c1]; exact ⟨_, rfl⟩
  · rw [if_neg c1]
    by_cases c2 : idCol ∉ (renameCols df hier).cols
    · rw [if_pos c2]; exact ⟨_, rfl⟩
    · rw [if_neg c2]
      have hidh : idCol ∉ hier := by
        intro hmemh
        apply c2
        intro hmem2
        obtain ⟨c0, hc0, hc⟩ := List.mem_map.mp hmem2
        by_cases hm : c0 ∈ hier
        · rw [renameF, if_pos hm] at hc
          exact strain_ne_id c0 hc
        · rw [renameF, if_neg hm] at hc
          exact hm (hc ▸ hmemh)
      have c3 : ¬ (idVals (renameCols df hier)).Nodup := by
        rw [idVals_rename hidh]
        intro hnd
        have hi2 : i < (idVals df).length := by simpa [idVals] using hi
        have hj2 : j < (idVals df).length := by simpa [idVals] using hj
        have hval : (idVals df).get ⟨i, hi2⟩ = (idVals df).get ⟨j, hj2⟩ := by
          simp only [idVals, List.get_eq_getElem, List.getElem_map]
          exact heq
        exact hij (congrArg Fin.val (hnd.get_inj_iff.mp hval))
      rw [if_pos c3]
      exact ⟨_, rfl⟩

/-- Witness for C9 at an input with a duplicated identifier value. -/
theorem duplicate_id_fails_witness :
    ∃ e, hierarchy_dataframe
      (⟨["gisaid_epi_isl", "region"],
        [[some "A1", some "Europe"], [some "A1", some "Oceania"]]⟩ : DataFrame)
      ["region"] = .error e :=
  duplicate_id_fails (i := 0) (j := 1) (by decide) (by decide)
    (by decide) (by decide) (by decide)

/-- Normalization-deduplication-sort core of the pipeline: the steps applied
after the reshape (fillna, drop_duplicates, sort_values by all columns). -/
def postProcess (rows : List (List Value)) : List (List Value) :=
  (dedupKeepFirst (rows.map fillRow)).insertionSort RLe

theorem postTable_rows_eq (df : DataFrame) (hier : List String) :
    (postTable df hier).rows = postProcess (longTable (renameCols df hier) hier).rows := rfl

theorem fillRow_fillRow (r : List Value) : fillRow (fillRow r) = fillRow r := by
  unfold fillRow
  rw [List.map_map]
  exact List.map_congr_left fun v _ => rfl

theorem mem_postProcess {rows : List (List Value)} {r : List Value} :
    r ∈ postProcess rows ↔ ∃ r0 ∈ rows, r = fillRow r0 := by
  unfold postProcess
  rw [List.mem_insertionSort, mem_dedupKeepFirst]
  constructor
  · intro hm
    obtain ⟨r0, h0, rfl⟩ := List.mem_map.mp hm
    exact ⟨r0, h0, rfl⟩
  · rintro ⟨r0, h0, rfl⟩
    exact List.mem_map.mpr ⟨r0, h0, rfl⟩

theorem nodup_postProcess (rows : List (List Value)) : (postProcess rows).Nodup :=
  (List.perm_insertionSort RLe _).nodup_iff.mpr (nodup_dedupKeepFirst _)

theorem sorted_postProcess (rows : List (List Value)) : (postProcess rows).Sorted RLe :=
  List.sorted_insertionSort RLe _

theorem postProcess_idem (rows : List (List Value)) :
    postProcess (postProcess rows) = postProcess rows := by
  have hfill : (postProcess rows).map fillRow = postProcess rows := by
    have hpt : ∀ a ∈ postProcess rows, fillRow a = a := by
      intro a ha
      obtain ⟨r0, _, rfl⟩ := mem_postProcess.mp ha
      exact fillRow_fillRow r0
    calc (postProcess rows).map fillRow = (postProcess rows).map id :=
          List.map_congr_left fun a ha => hpt a ha
      _ = postProcess rows := List.map_id _
  show (dedupKeepFirst ((postProcess rows).map fillRow)).insertionSort RLe = postProcess rows
  rw [hfill, dedupKeepFirst_eq_self (nodup_postProcess rows)]
  exact (sorted_postProcess rows).insertionSort_eq

/-- C4 counterexample: the output of a successful call lacks the identifier
column, so re-applying the function to that output fails with the
missing-identifier KeyError instead of succeeding. -/
theorem rerun_fails_cex :
    hierarchy_dataframe scenarioDf ["region"] =
      .ok ⟨["region"], [[some ""], [some "Asia"], [some "Europe"]]⟩ ∧
    hierarchy_dataframe (⟨["region"], [[some ""], [some "Asia"], [some "Europe"]]⟩ : DataFrame)
      ["region"] = .error .missingIdColumn := by decide

/-- C4 amended: re-applying `hierarchy_dataframe` to the output of a
successful call always fails — the output columns are exactly the hierarchy
columns, so either some level renamed to `_strain` collides with a stubname
(when a level with `_strain` appended is again a level) and the stubname
ValueError fires, or otherwise the identifier column is absent and the rerun
fails with the missing-identifier error.  The output is nonetheless a fixed
point of the normalize-deduplicate-sort core of the pipeline: re-running
fillna, drop_duplicates and sort_values on its rows changes nothing. -/
theorem rerun_fails_core_idem {df out : DataFrame} {hier : List String}
    (h : hierarchy_dataframe df hier = .ok out) :
    (∃ e, hierarchy_dataframe out hier = .error e) ∧
    ((∀ c ∈ hier, c ++ "_strain" ∉ hier) →
      hierarchy_dataframe out hier = .error .missingIdColumn) ∧
    postProcess out.rows = out.rows := by
  have hout := ok_inversion h
  have hcols : out.cols = hier := by rw [hout, postTable_cols]
  have c2 : idCol ∉ (renameCols out hier).cols := by
    intro hmem2
    obtain ⟨c0, hc0, hc⟩ := List.mem_map.mp hmem2
    rw [hcols] at hc0
    rw [renameF, if_pos hc0] at hc
    exact strain_ne_id c0 hc
  refine ⟨?_, ?_, ?_⟩
  · by_cases hcoll : ((renameCols out hier).cols.any fun c => decide (c ∈ hier)) = true
    · refine ⟨.stubnameCollision, ?_⟩
      unfold hierarchy_dataframe reshapePipeline
      rw [if_pos hcoll]
    · refine ⟨.missingIdColumn, ?_⟩
      unfold hierarchy_dataframe reshapePipeline
      rw [if_neg hcoll, if_pos c2]
  · intro hstr
    have hcol2 : ∀ c ∈ out.cols, c ∈ hier → c ++ "_strain" ∉ hier := by
      rw [hcols]
      intro c hc _
      exact hstr c hc
    unfold hierarchy_dataframe reshapePipeline
    rw [if_neg (no_collision hcol2), if_pos c2]
  · rw [hout, postTable_rows_eq]
    exact postProcess_idem _

/-- Witness for the amended C4 at the scenario input and its output. -/
theorem rerun_fails_core_idem_witness :
    (∃ e, hierarchy_dataframe
      (⟨["region"], [[some ""], [some "Asia"], [some "Europe"]]⟩ : DataFrame) ["region"] =
        .error e) ∧
    ((∀ c ∈ (["region"] : List String), c ++ "_strain" ∉ (["region"] : List String)) →
      hierarchy_dataframe
        (⟨["region"], [[some ""], [some "Asia"], [some "Europe"]]⟩ : DataFrame) ["region"] =
        .error .missingIdColumn) ∧
    postProcess ([[some ""], [some "Asia"], [some "Europe"]] : List (List Value)) =
      [[some ""], [some "Asia"], [some "Europe"]] :=
  rerun_fails_core_idem
    (by decide : hierarchy_dataframe scenarioDf ["region"] =
      .ok ⟨["region"], [[some ""], [some "Asia"], [some "Europe"]]⟩)

end NcovIngest
